import Mathlib

/-!
Verification development for the visual-info ingestion pipeline
(src/utils.ts and the sanitizeData pass of the application shell).

The TypeScript source is shallowly embedded: the generic value tree
produced by the deserializer is the inductive type Json below; JS
truthiness, string coercion and property lookup are modelled explicitly;
the two parse attempts (strict JSON.parse and the Function-constructor
based loose parse) are modelled as fuel-based recursive-descent parsers
returning Option; the identifier generator and the repair pass are
modelled with their state (counter, seen-set) threaded explicitly, the
sources of randomness and time being supplied as oracle inputs.
-/

namespace VisualInfo

/-- The untyped value tree of the Tolerant Deserializer (objects, arrays,
strings, numbers, booleans, null).  Numbers are modelled as integers. -/
inductive Json where
  | null : Json
  | bool (b : Bool) : Json
  | num (n : Int) : Json
  | str (s : String) : Json
  | arr (elems : List Json) : Json
  | obj (fields : List (String × Json)) : Json

/-- JS truthiness of a value (the test performed by if (x), x || y, !x). -/
def truthy : Json → Bool
  | Json.null => false
  | Json.bool b => b
  | Json.num n => if n = 0 then false else true
  | Json.str s => if s = "" then false else true
  | Json.arr _ => true
  | Json.obj _ => true

/-- Is the value the null literal. -/
def Json.isNull : Json → Bool
  | Json.null => true
  | _ => false

/-- First binding of a key in an object field list (JS property lookup). -/
def lookupField : List (String × Json) → String → Option Json
  | [], _ => none
  | (k, v) :: fs, key => if k = key then some v else lookupField fs key

/-- JS property access rp[key]: a field of an object, undefined (none)
on every non-object value. -/
def getFieldJ : Json → String → Option Json
  | Json.obj fs, key => lookupField fs key
  | _, _ => none

/-- Model of the JS expression x || d (value if truthy, else default). -/
def jsOrDefault (o : Option Json) (d : Json) : Json :=
  match o with
  | some v => if truthy v then v else d
  | none => d

/-- Decimal digit to character. -/
def digitCh (n : Nat) : Char :=
  match n with
  | 0 => Char.ofNat 48
  | 1 => Char.ofNat 49
  | 2 => Char.ofNat 50
  | 3 => Char.ofNat 51
  | 4 => Char.ofNat 52
  | 5 => Char.ofNat 53
  | 6 => Char.ofNat 54
  | 7 => Char.ofNat 55
  | 8 => Char.ofNat 56
  | 9 => Char.ofNat 57
  | _ => Char.ofNat 42

/-- Fuel-based accumulator loop for decimal rendering of a Nat
(the digits of n, most significant first, prepended to acc). -/
def natToDecAux : Nat → Nat → List Char → List Char
  | 0, _, acc => acc
  | _ + 1, 0, acc => acc
  | f + 1, n + 1, acc => natToDecAux f ((n + 1) / 10) (digitCh ((n + 1) % 10) :: acc)

/-- Decimal rendering of a Nat, as JS String(n) produces for integers. -/
def natToDec (n : Nat) : String :=
  if n = 0 then String.mk [digitCh 0] else String.mk (natToDecAux (n + 1) n [])

/-- Decimal rendering of an Int, as JS String(n) produces for integers. -/
def intToDec (i : Int) : String :=
  if i < 0 then "-" ++ natToDec i.natAbs else natToDec i.natAbs

/-- Value of a decimal digit character. -/
def dval (c : Char) : Nat := c.toNat - 48

/-- Left fold decoding a decimal digit string. -/
def decodeFold : Nat → List Char → Nat
  | a, [] => a
  | a, c :: cs => decodeFold (a * 10 + dval c) cs

/-- Decode a decimal string back to a Nat. -/
def decodeDec (s : String) : Nat := decodeFold 0 s.data

/-- Base-36 digit to character (0-9 then a-z), as used by toString(36). -/
def digitCh36 (n : Nat) : Char :=
  if n < 10 then digitCh n
  else if n < 36 then Char.ofNat (87 + n)
  else Char.ofNat 42

/-- Fuel-based accumulator loop for base-36 rendering of a Nat. -/
def natToB36Aux : Nat → Nat → List Char → List Char
  | 0, _, acc => acc
  | _ + 1, 0, acc => acc
  | f + 1, n + 1, acc => natToB36Aux f ((n + 1) / 36) (digitCh36 ((n + 1) % 36) :: acc)

/-- Base-36 rendering of a Nat, as JS n.toString(36) produces. -/
def natToB36 (n : Nat) : String :=
  if n = 0 then String.mk [digitCh 0] else String.mk (natToB36Aux (n + 1) n [])

/-- Join strings with commas, as JS Array.prototype.toString does. -/
def joinComma : List String → String
  | [] => ""
  | [s] => s
  | s :: rest => s ++ "," ++ joinComma rest

mutual

/-- JS string coercion String(v).  Arrays render as their elements joined
with commas; inside the join, null elements render as the empty string,
as in JS. -/
def jsToString : Json → String
  | Json.null => "null"
  | Json.bool true => "true"
  | Json.bool false => "false"
  | Json.num n => intToDec n
  | Json.str s => s
  | Json.arr l => joinComma (jsElemStrings l)
  | Json.obj _ => "[object Object]"

/-- The rendered elements of an array under JS string coercion. -/
def jsElemStrings : List Json → List String
  | [] => []
  | x :: xs =>
      (match x with
       | Json.null => ""
       | _ => jsToString x) :: jsElemStrings xs

end

/-- Whitespace for the purposes of JS trim and the \s character class
(modelled over the ASCII range). -/
def isSpaceLike (c : Char) : Bool :=
  c = ' ' || c = Char.ofNat 9 || c = Char.ofNat 10 || c = Char.ofNat 13 ||
  c = Char.ofNat 12 || c = Char.ofNat 11

/-- JS String.prototype.trim. -/
def jsTrim (s : String) : String :=
  String.mk (((s.data.dropWhile isSpaceLike).reverse.dropWhile isSpaceLike).reverse)

/-- Does the text begin with the pattern (both as char lists). -/
def startsWithL : List Char → List Char → Bool
  | [], _ => true
  | _ :: _, [] => false
  | p :: ps, c :: cs => p = c && startsWithL ps cs

/-- JS String.prototype.startsWith. -/
def startsWithS (s pat : String) : Bool := startsWithL pat.data s.data

/-- Does the pattern occur as a contiguous substring of the text. -/
def hasSubL (pat : List Char) : List Char → Bool
  | [] => startsWithL pat []
  | c :: cs => startsWithL pat (c :: cs) || hasSubL pat cs

/-- JS String.prototype.includes. -/
def hasSubS (s pat : String) : Bool := hasSubL pat.data s.data

/-- Strip the pattern from the front of the text, returning the rest. -/
def stripL : List Char → List Char → Option (List Char)
  | [], cs => some cs
  | _ :: _, [] => none
  | p :: ps, c :: cs => if p = c then stripL ps cs else none

/-! Named characters, to keep the parser definitions readable. -/

/-- Double quote. -/
def chDQ : Char := Char.ofNat 34

/-- Single quote. -/
def chSQ : Char := Char.ofNat 39

/-- Backslash. -/
def chBS : Char := Char.ofNat 92

/-- Opening curly bracket. -/
def chOB : Char := Char.ofNat 123

/-- Closing curly bracket. -/
def chCB : Char := Char.ofNat 125

/-- JSON insignificant whitespace (space, tab, LF, CR). -/
def isJsonWs (c : Char) : Bool :=
  c = ' ' || c = Char.ofNat 9 || c = Char.ofNat 10 || c = Char.ofNat 13

/-- Drop leading insignificant whitespace. -/
def skipWs : List Char → List Char
  | [] => []
  | c :: cs => if isJsonWs c then skipWs cs else c :: cs

/-- ASCII decimal digit test. -/
def isDigitCh (c : Char) : Bool := 48 ≤ c.toNat && c.toNat ≤ 57

/-- Split off the maximal leading run of decimal digits. -/
def takeDigits : List Char → List Char × List Char
  | [] => ([], [])
  | c :: cs =>
    if isDigitCh c then
      match takeDigits cs with
      | (ds, r) => (c :: ds, r)
    else ([], c :: cs)

/-- Numeric value of a digit run. -/
def digitsToNat (ds : List Char) : Nat := decodeFold 0 ds

/-- JSON escape sequences (the \ u form is modelled as a parse failure). -/
def escCharJson (c : Char) : Option Char :=
  if c = chDQ then some chDQ
  else if c = chBS then some chBS
  else if c = Char.ofNat 47 then some (Char.ofNat 47)
  else if c = 'n' then some (Char.ofNat 10)
  else if c = 't' then some (Char.ofNat 9)
  else if c = 'r' then some (Char.ofNat 13)
  else if c = 'b' then some (Char.ofNat 8)
  else if c = 'f' then some (Char.ofNat 12)
  else none

/-- JS escape sequences: the JSON ones, and any other character escapes
to itself (the \ u and \ x hex forms are modelled as identity escapes,
which no claim exercises). -/
def escCharLoose (c : Char) : Option Char :=
  match escCharJson c with
  | some e => some e
  | none => some c

/-- Scan the body of a quoted string after its opening quote q, applying
the escape table, and return the content with the rest of the input. -/
def pStrBody (esc : Char → Option Char) (q : Char) : List Char → Option (List Char × List Char)
  | [] => none
  | c :: cs =>
    if c = q then some ([], cs)
    else if c = chBS then
      match cs with
      | [] => none
      | e :: cs2 =>
        match esc e with
        | none => none
        | some ec =>
          match pStrBody esc q cs2 with
          | some (l, r) => some (ec :: l, r)
          | none => none
    else
      match pStrBody esc q cs with
      | some (l, r) => some (c :: l, r)
      | none => none

mutual

/-- Strict JSON value parser (model of JSON.parse), fuel-based
recursive descent.  Numeric literals are modelled as integers; fractional
and exponent forms, and the \ u escape, are treated as parse failures in
the model (no claim exercises them). -/
def pVal : Nat → List Char → Option (Json × List Char)
  | 0, _ => none
  | f + 1, cs =>
    match skipWs cs with
    | [] => none
    | c :: rest =>
      if c = 'n' then
        match stripL ['u', 'l', 'l'] rest with
        | some r => some (Json.null, r)
        | none => none
      else if c = 't' then
        match stripL ['r', 'u', 'e'] rest with
        | some r => some (Json.bool true, r)
        | none => none
      else if c = 'f' then
        match stripL ['a', 'l', 's', 'e'] rest with
        | some r => some (Json.bool false, r)
        | none => none
      else if c = chDQ then
        match pStrBody escCharJson chDQ rest with
        | some (content, r) => some (Json.str (String.mk content), r)
        | none => none
      else if c = '-' then
        match takeDigits rest with
        | ([], _) => none
        | (ds, r) => some (Json.num (-(digitsToNat ds : Int)), r)
      else if isDigitCh c then
        match takeDigits (c :: rest) with
        | (ds, r) => some (Json.num (digitsToNat ds), r)
      else if c = '[' then
        match skipWs rest with
        | c2 :: r2 => if c2 = ']' then some (Json.arr [], r2) else pArrLoop f (c2 :: r2) []
        | [] => none
      else if c = chOB then
        match skipWs rest with
        | c2 :: r2 => if c2 = chCB then some (Json.obj [], r2) else pObjLoop f (c2 :: r2) []
        | [] => none
      else none

/-- Strict JSON array elements after the opening bracket (no trailing
comma permitted). -/
def pArrLoop : Nat → List Char → List Json → Option (Json × List Char)
  | 0, _, _ => none
  | f + 1, cs, acc =>
    match pVal f cs with
    | none => none
    | some (v, r) =>
      match skipWs r with
      | c :: r2 =>
        if c = ',' then pArrLoop f r2 (acc ++ [v])
        else if c = ']' then some (Json.arr (acc ++ [v]), r2)
        else none
      | [] => none

/-- Strict JSON object members after the opening bracket (double-quoted
keys only, no trailing comma). -/
def pObjLoop : Nat → List Char → List (String × Json) → Option (Json × List Char)
  | 0, _, _ => none
  | f + 1, cs, acc =>
    match skipWs cs with
    | c :: rest =>
      if c = chDQ then
        match pStrBody escCharJson chDQ rest with
        | some (content, r) =>
          (match skipWs r with
           | c2 :: r2 =>
             if c2 = ':' then
               match pVal f r2 with
               | some (v, r3) =>
                 (match skipWs r3 with
                  | c3 :: r4 =>
                    if c3 = ',' then pObjLoop f r4 (acc ++ [(String.mk content, v)])
                    else if c3 = chCB then some (Json.obj (acc ++ [(String.mk content, v)]), r4)
                    else none
                  | [] => none)
               | none => none
             else none
           | [] => none)
        | none => none
      else none
    | [] => none

end

/-- The strict parse attempt: JSON.parse on the whole input (the value
followed only by whitespace). -/
def strictParse (s : String) : Option Json :=
  match pVal (3 * s.data.length + 16) s.data with
  | some (v, r) => if (skipWs r).isEmpty then some v else none
  | none => none

/-- Identifier-start character of a JS identifier. -/
def isIdentStart (c : Char) : Bool := c.isAlpha || c = '_' || c = '$'

/-- Identifier-continuation character of a JS identifier. -/
def isIdentCh (c : Char) : Bool := isIdentStart c || isDigitCh c

/-- Split off the maximal leading identifier run. -/
def takeIdent : List Char → List Char × List Char
  | [] => ([], [])
  | c :: cs =>
    if isIdentCh c then
      match takeIdent cs with
      | (ds, r) => (c :: ds, r)
    else ([], c :: cs)

/-- A keyword literal must not be followed by an identifier character
(nullx is an identifier, not the null literal). -/
def identBoundary : List Char → Bool
  | [] => true
  | c :: _ => !(isIdentCh c)

/-- An object key of the loose grammar: a bare identifier, or a single-
or double-quoted string. -/
def lKey (cs : List Char) : Option (String × List Char) :=
  match skipWs cs with
  | [] => none
  | c :: rest =>
    if c = chDQ then
      match pStrBody escCharLoose chDQ rest with
      | some (content, r) => some (String.mk content, r)
      | none => none
    else if c = chSQ then
      match pStrBody escCharLoose chSQ rest with
      | some (content, r) => some (String.mk content, r)
      | none => none
    else if isIdentStart c then
      match takeIdent (c :: rest) with
      | (i, r) => some (String.mk i, r)
    else none

/-- JS addition on the values the model supports: numeric addition and
string concatenation (with number-to-string coercion).  Additions
involving objects, arrays, booleans or null are modelled as unsupported;
the Function constructor would coerce them, which no claim exercises. -/
def jsAdd : Json → Json → Option Json
  | Json.num a, Json.num b => some (Json.num (a + b))
  | Json.str a, Json.str b => some (Json.str (a ++ b))
  | Json.str a, Json.num b => some (Json.str (a ++ intToDec b))
  | Json.num a, Json.str b => some (Json.str (intToDec a ++ b))
  | _, _ => none

mutual

/-- An expression of the loose grammar.  When addOps is true this is the
model of what the Function constructor evaluates: a value followed by
any number of + operations, each evaluated as it is parsed.  When addOps
is false only a single value is accepted (the literal-only grammar). -/
def lExpr (addOps : Bool) : Nat → List Char → Option (Json × List Char)
  | 0, _ => none
  | f + 1, cs =>
    match lVal addOps f cs with
    | none => none
    | some (v, r) => if addOps then lAddChain addOps f r v else some (v, r)

/-- The chain of + operations after a first value. -/
def lAddChain (addOps : Bool) : Nat → List Char → Json → Option (Json × List Char)
  | 0, _, _ => none
  | f + 1, cs, acc =>
    match skipWs cs with
    | c :: r =>
      if c = '+' then
        match lVal addOps f r with
        | none => none
        | some (v, r2) =>
          match jsAdd acc v with
          | some w => lAddChain addOps f r2 w
          | none => none
      else some (acc, cs)
    | [] => some (acc, cs)

/-- A value of the loose grammar: the JS-style relaxations of the JSON
grammar — single- or double-quoted strings, unquoted or quoted object
keys, trailing commas in arrays and objects. -/
def lVal (addOps : Bool) : Nat → List Char → Option (Json × List Char)
  | 0, _ => none
  | f + 1, cs =>
    match skipWs cs with
    | [] => none
    | c :: rest =>
      if c = 'n' then
        match stripL ['u', 'l', 'l'] rest with
        | some r => if identBoundary r then some (Json.null, r) else none
        | none => none
      else if c = 't' then
        match stripL ['r', 'u', 'e'] rest with
        | some r => if identBoundary r then some (Json.bool true, r) else none
        | none => none
      else if c = 'f' then
        match stripL ['a', 'l', 's', 'e'] rest with
        | some r => if identBoundary r then some (Json.bool false, r) else none
        | none => none
      else if c = chDQ then
        match pStrBody escCharLoose chDQ rest with
        | some (content, r) => some (Json.str (String.mk content), r)
        | none => none
      else if c = chSQ then
        match pStrBody escCharLoose chSQ rest with
        | some (content, r) => some (Json.str (String.mk content), r)
        | none => none
      else if c = '-' then
        match takeDigits rest with
        | ([], _) => none
        | (ds, r) => some (Json.num (-(digitsToNat ds : Int)), r)
      else if isDigitCh c then
        match takeDigits (c :: rest) with
        | (ds, r) => some (Json.num (digitsToNat ds), r)
      else if c = '[' then
        match skipWs rest with
        | c2 :: r2 => if c2 = ']' then some (Json.arr [], r2) else lArrLoop addOps f (c2 :: r2) []
        | [] => none
      else if c = chOB then
        match skipWs rest with
        | c2 :: r2 => if c2 = chCB then some (Json.obj [], r2) else lObjLoop addOps f (c2 :: r2) []
        | [] => none
      else none

/-- Loose array elements after the opening bracket; a trailing comma
before the closing bracket is accepted. -/
def lArrLoop (addOps : Bool) : Nat → List Char → List Json → Option (Json × List Char)
  | 0, _, _ => none
  | f + 1, cs, acc =>
    match lExpr addOps f cs with
    | none => none
    | some (v, r) =>
      match skipWs r with
      | c :: r2 =>
        if c = ',' then
          match skipWs r2 with
          | c2 :: r3 =>
            if c2 = ']' then some (Json.arr (acc ++ [v]), r3)
            else lArrLoop addOps f (c2 :: r3) (acc ++ [v])
          | [] => none
        else if c = ']' then some (Json.arr (acc ++ [v]), r2)
        else none
      | [] => none

/-- Loose object members after the opening bracket; unquoted keys and a
trailing comma are accepted. -/
def lObjLoop (addOps : Bool) : Nat → List Char → List (String × Json) → Option (Json × List Char)
  | 0, _, _ => none
  | f + 1, cs, acc =>
    match lKey cs with
    | none => none
    | some (k, r) =>
      match skipWs r with
      | c :: r2 =>
        if c = ':' then
          match lExpr addOps f r2 with
          | some (v, r3) =>
            (match skipWs r3 with
             | c2 :: r4 =>
               if c2 = ',' then
                 match skipWs r4 with
                 | c3 :: r5 =>
                   if c3 = chCB then some (Json.obj (acc ++ [(k, v)]), r5)
                   else lObjLoop addOps f (c3 :: r5) (acc ++ [(k, v)])
                 | [] => none
               else if c2 = chCB then some (Json.obj (acc ++ [(k, v)]), r4)
               else none
             | [] => none)
          | none => none
        else none
      | [] => none

end

/-- The tolerant parse attempt of the source: the input is handed to the
Function constructor as return ( input ), so a whole-input JS expression
is evaluated.  Modelled by the loose grammar with the + operation layer
enabled: a thrown error (any parse or evaluation failure) is none. -/
def looseParse (s : String) : Option Json :=
  match lExpr true (3 * s.data.length + 16) s.data with
  | some (v, r) => if (skipWs r).isEmpty then some v else none
  | none => none

/-- Modelled from the spec: the tolerant grammar section 4.1 requires —
unquoted or single-quoted keys, single- or double-quoted strings,
trailing commas — while constructing only literal data, with no
expression-evaluation capability.  This is the same loose grammar with
the + operation layer disabled. -/
def looseParseLiteralOnly (s : String) : Option Json :=
  match lExpr false (3 * s.data.length + 16) s.data with
  | some (v, r) => if (skipWs r).isEmpty then some v else none
  | none => none

/-- Split off the maximal leading run of non-whitespace characters
(the regex fragment [^ \ s]+ when non-empty). -/
def takeNonSpace : List Char → List Char × List Char
  | [] => ([], [])
  | c :: cs =>
    if isSpaceLike c then ([], c :: cs)
    else
      match takeNonSpace cs with
      | (t, r) => (c :: t, r)

/-- Match the first regex alternative https?:// [^ \ s]+ at this
position. -/
def tryHttp (cs : List Char) : Option (List Char × List Char) :=
  match stripL "https://".data cs with
  | some r =>
    (match takeNonSpace r with
     | ([], _) => none
     | (t, r2) => some ("https://".data ++ t, r2))
  | none =>
    match stripL "http://".data cs with
    | some r =>
      (match takeNonSpace r with
       | ([], _) => none
       | (t, r2) => some ("http://".data ++ t, r2))
    | none => none

/-- Match the second regex alternative arXiv: digits . digits at this
position. -/
def tryArxiv (cs : List Char) : Option (List Char × List Char) :=
  match stripL "arXiv:".data cs with
  | some r =>
    (match takeDigits r with
     | ([], _) => none
     | (d1, r1) =>
       match r1 with
       | c :: r2 =>
         if c = '.' then
           match takeDigits r2 with
           | ([], _) => none
           | (d2, r3) => some ("arXiv:".data ++ d1 ++ '.' :: d2, r3)
         else none
       | [] => none)
  | none => none

/-- Match the third regex alternative github.com/ [^ \ s]+ at this
position. -/
def tryGithub (cs : List Char) : Option (List Char × List Char) :=
  match stripL "github.com/".data cs with
  | some r =>
    (match takeNonSpace r with
     | ([], _) => none
     | (t, r2) => some ("github.com/".data ++ t, r2))
  | none => none

/-- The three alternatives of the link regex, in their written order. -/
def tryLinkAt (cs : List Char) : Option (List Char × List Char) :=
  match tryHttp cs with
  | some m => some m
  | none =>
    match tryArxiv cs with
    | some m => some m
    | none => tryGithub cs

/-- Global regex scan: successive non-overlapping matches, attempted at
every position from left to right. -/
def scanLinks : Nat → List Char → List String
  | 0, _ => []
  | _ + 1, [] => []
  | f + 1, c :: cs =>
    match tryLinkAt (c :: cs) with
    | some (m, rest) => String.mk m :: scanLinks f rest
    | none => scanLinks f cs

/-- The extractLinks helper of the source: every match of the link regex
in the text, in order (an absent match yields the empty list). -/
def extractLinks (text : String) : List String :=
  scanLinks (text.data.length + 1) text.data

/-- Spread of a JS Set built from the list: duplicates removed, first
occurrence kept, insertion order preserved. -/
def dedupFirstAux : List String → List String → List String
  | _, [] => []
  | seen, x :: xs =>
    if seen.contains x then dedupFirstAux seen xs
    else x :: dedupFirstAux (x :: seen) xs

/-- Deduplication of the link list by exact text equality, preserving
first-occurrence order. -/
def dedupFirst (l : List String) : List String := dedupFirstAux [] l

/-- Normalization of an explicit link field value in the source: trim;
then unless it starts with http or arXiv, prepend https:// when it
contains www, .com or .org. -/
def cleanLink (s0 : String) : String :=
  let c := jsTrim s0
  if startsWithS c "http" || startsWithS c "arXiv" then c
  else if hasSubS c "www" || hasSubS c ".com" || hasSubS c ".org" then "https://" ++ c
  else c

/-- Does the text contain the :// separator of a URI scheme. -/
def hasSchemeS (s : String) : Bool := hasSubS s "://"

/-- Modelled from the spec/claim wording for the link-field rule: trim;
prepend a secure scheme exactly when the value lacks a scheme and
resembles a bare domain (contains www, .com or .org); otherwise leave it
as-is.  Compared against cleanLink, which is what the source does. -/
def claimCleanLink (s0 : String) : String :=
  let c := jsTrim s0
  if hasSchemeS c then c
  else if hasSubS c "www" || hasSubS c ".com" || hasSubS c ".org" then "https://" ++ c
  else c

/-- Truthiness of a possibly absent value (undefined is falsy). -/
def truthyOpt (o : Option Json) : Bool :=
  match o with
  | some v => truthy v
  | none => false

/-- First truthy value of the JS chain
rp.url || rp.link || rp.URL || rp.href || rp.doi. -/
def firstTruthyIn (rp : Json) : List String → Option Json
  | [] => none
  | k :: ks =>
    match getFieldJ rp k with
    | some v => if truthy v then some v else firstTruthyIn rp ks
    | none => firstTruthyIn rp ks

/-- The explicit link-bearing fields, in the order the source checks
them. -/
def firstTruthyField (rp : Json) : Option Json :=
  firstTruthyIn rp ["url", "link", "URL", "href", "doi"]

/-- The combined free text scanned for links: the template literal
of the summary-like and contribution-like fields, each defaulted to the
empty string when falsy. -/
def combinedText (rp : Json) : String :=
  jsToString (jsOrDefault (getFieldJ rp "Resumen Ejecutivo") (Json.str "")) ++ " " ++
  jsToString (jsOrDefault (getFieldJ rp "Conclusión/Aporte Clave") (Json.str ""))

/-- The internal Paper record constructed by the mapping in
parseRawJson.  Fields the source copies without coercion keep the
generic value type. -/
structure Paper where
  id : String
  title : Json
  year : String
  tags : List Json
  summary : Json
  contribution : Json
  userNotes : String
  isImportant : Bool
  links : List String

/-- The Record Normalizer: one candidate raw record to one Paper, with
the defaulting and link logic of the source. -/
def normalizeRaw (newId : String) (rp : Json) : Paper :=
  let extracted := extractLinks (combinedText rp)
  let links :=
    match firstTruthyField rp with
    | some (Json.str s) => cleanLink s :: extracted
    | _ => extracted
  { id := newId
    title := jsOrDefault (getFieldJ rp "Título") (Json.str "Untitled Paper")
    year :=
      match getFieldJ rp "Año" with
      | some v => if truthy v then jsToString v else "N/D"
      | none => "N/D"
    tags :=
      match getFieldJ rp "Etiquetas" with
      | some (Json.arr l) => l
      | _ => []
    summary := jsOrDefault (getFieldJ rp "Resumen Ejecutivo") (Json.str "No summary provided.")
    contribution := jsOrDefault (getFieldJ rp "Conclusión/Aporte Clave") (Json.str "")
    userNotes := ""
    isImportant := false
    links := dedupFirst links }

/-- Re-decoding of an embedded output string inside the traversal:
strict attempt first, then the loose fallback. -/
def innerParse (s : String) : Option Json :=
  match strictParse s with
  | some v => some v
  | none => looseParse s

mutual

/-- The Structure Miner's traversal.  For each node, in the order the
source mutates its accumulator: recurse into array elements; for an
object, recurse into a data array field, then append the elements of a
decoded output string field when the decoded value is an array, then
append the object itself when its title-like or summary-like field is
truthy.  Falsy and scalar nodes contribute nothing. -/
def mine : Json → List Json
  | Json.arr l => mineList l
  | Json.obj fs =>
      mineData fs
      ++ (match lookupField fs "output" with
          | some (Json.str s) =>
            (match innerParse s with
             | some (Json.arr l) => l
             | _ => [])
          | _ => [])
      ++ (if truthyOpt (lookupField fs "Título") || truthyOpt (lookupField fs "Resumen Ejecutivo")
          then [Json.obj fs] else [])
  | _ => []

/-- Depth-first traversal of a list of nodes, input order preserved. -/
def mineList : List Json → List Json
  | [] => []
  | x :: xs => mine x ++ mineList xs

/-- The envelope-unwrap rule: recurse into the elements of the first
data field when its value is an array. -/
def mineData : List (String × Json) → List Json
  | [] => []
  | (k, v) :: fs =>
    if k = "data" then
      match v with
      | Json.arr l => mineList l
      | _ => []
    else mineData fs

end

/-- Indexed map: the source calls generateId once per candidate, in
order, so the k-th candidate receives the k-th generated identifier. -/
def mapIdxFrom (f : Nat → Json → Paper) : Nat → List Json → List Paper
  | _, [] => []
  | k, x :: xs => f k x :: mapIdxFrom f (k + 1) xs

/-- Does the candidate list contain the null literal.  Property access
on null throws in JS, so the mapping over such a list throws, the outer
catch fires and the whole call returns the empty list. -/
def containsNull (l : List Json) : Bool := l.any Json.isNull

/-- The full ingestion pipeline parseRawJson of the source: strict parse
attempt, loose fallback, empty output when both fail; then the miner
and, candidate by candidate, the normalizer.  The identifier generator
is abstracted as the sequence of identifiers it returns (the k-th call
yields gen k). -/
def parseRawJson (gen : Nat → String) (input : String) : List Paper :=
  match (match strictParse input with
         | some v => some v
         | none => looseParse input) with
  | none => []
  | some v =>
    let cs := mine v
    if containsNull cs then []
    else mapIdxFrom (fun k rp => normalizeRaw (gen k) rp) 0 cs

/-- The module-level mutable state of the identifier generator: the
fallback uniqueness counter. -/
structure GenState where
  counter : Nat

/-- The environment one generateId call observes: whether the crypto
UUID primitive is available, and the values the oracles (randomUUID,
Date.now, Math.random) would return at this instant. -/
structure GenEnv where
  hasUUID : Bool
  uuid : String
  nowMs : Nat
  rand : String

/-- The generateId helper of the source.  When crypto.randomUUID is
available its value is returned directly and the counter is untouched;
otherwise the fallback identifier combines the time in base 36, the
incremented counter modulo 9999, and the random component. -/
def generateId (env : GenEnv) (st : GenState) : String × GenState :=
  if env.hasUUID then (env.uuid, st)
  else
    let c := (st.counter + 1) % 9999
    ("id_" ++ natToB36 env.nowMs ++ "_" ++ natToDec c ++ "_" ++ env.rand, ⟨c⟩)

/-- A persisted paper record as the repair pass sees it: its id property
(possibly absent), and every other property. -/
structure RawPaperRec where
  pid : Option Json
  rest : List (String × Json)

/-- A persisted group (sheet): its papers property — none models a
papers value that is not an array, which the source replaces by the
empty list — and every other property. -/
structure RawSheetRec where
  papers : Option (List RawPaperRec)
  rest : List (String × Json)

/-- The normalized current identifier of a record, as the repair pass
computes it: String(p.id).trim() when p.id is truthy; the subsequent
emptiness test folds the whitespace-only case into absence, so the
usable identifier is the non-empty trimmed text, when there is one. -/
def usableId (p : RawPaperRec) : Option String :=
  match p.pid with
  | none => none
  | some v =>
    if truthy v then
      let t := jsTrim (jsToString v)
      if t = "" then none else some t
    else none

/-- One step of the repair pass on one record: keep the usable
identifier unless it is absent or already seen, otherwise take a fresh
one (the seen-set and the count of fresh identifiers used so far are
threaded; the k-th fresh identifier is gen k). -/
def sanitizePaper (gen : Nat → String) (p : RawPaperRec) (seen : List String) (c : Nat) :
    RawPaperRec × List String × Nat :=
  match usableId p with
  | none => ({ p with pid := some (Json.str (gen c)) }, gen c :: seen, c + 1)
  | some t =>
    if t ∈ seen then ({ p with pid := some (Json.str (gen c)) }, gen c :: seen, c + 1)
    else ({ p with pid := some (Json.str t) }, t :: seen, c)

/-- The repair pass over one group's record list, in stored order. -/
def sanitizePapers (gen : Nat → String) :
    List RawPaperRec → List String → Nat → List RawPaperRec × List String × Nat
  | [], seen, c => ([], seen, c)
  | p :: ps, seen, c =>
    let r1 := sanitizePaper gen p seen c
    let r2 := sanitizePapers gen ps r1.2.1 r1.2.2
    (r1.1 :: r2.1, r2.2)

/-- The repair pass over the groups, the seen-set and counter flowing
through all of them; a non-array papers value becomes the empty list. -/
def sanitizeSheets (gen : Nat → String) :
    List RawSheetRec → List String → Nat → List RawSheetRec × List String × Nat
  | [], seen, c => ([], seen, c)
  | s :: ss, seen, c =>
    match s.papers with
    | some ps =>
      let r1 := sanitizePapers gen ps seen c
      let r2 := sanitizeSheets gen ss r1.2.1 r1.2.2
      ({ papers := some r1.1, rest := s.rest } :: r2.1, r2.2)
    | none =>
      let r2 := sanitizeSheets gen ss seen c
      ({ papers := some [], rest := s.rest } :: r2.1, r2.2)

/-- The sanitizeData function of the application shell: the repair pass
over a previously persisted collection, with one empty seen-set for the
whole walk. -/
def sanitizeData (gen : Nat → String) (sheets : List RawSheetRec) : List RawSheetRec :=
  (sanitizeSheets gen sheets [] 0).1

/-- The identifier a repaired record carries, when it is a string. -/
def outIdOf (q : RawPaperRec) : Option String :=
  match q.pid with
  | some (Json.str i) => some i
  | _ => none

/-- All string identifiers of a record list, in order. -/
def outIds (qs : List RawPaperRec) : List String := qs.filterMap outIdOf

/-- All records of a collection in walk order (a non-array papers value
contributes none). -/
def flatPapers (sheets : List RawSheetRec) : List RawPaperRec :=
  match sheets with
  | [] => []
  | s :: ss => (s.papers.getD []) ++ flatPapers ss

/-- All identifiers of a collection in walk order. -/
def idsOf (sheets : List RawSheetRec) : List String := outIds (flatPapers sheets)

/-- The usable input identifiers of a collection (the pool a fresh
identifier must avoid). -/
def poolIds (sheets : List RawSheetRec) : List String :=
  (flatPapers sheets).filterMap usableId

/-! ### Helper lemmas -/

theorem dval_digitCh : ∀ m : Nat, m < 10 → dval (digitCh m) = m := by
  decide

theorem natToDecAux_spec :
    ∀ (f n : Nat) (acc : List Char), n ≤ f →
      decodeFold 0 (natToDecAux f n acc) = decodeFold n acc := by
  intro f
  induction f with
  | zero =>
    intro n acc h
    interval_cases n
    rfl
  | succ f ih =>
    intro n acc h
    match n with
    | 0 => rfl
    | n + 1 =>
      have hdiv : (n + 1) / 10 ≤ f := by
        have := Nat.div_lt_self (Nat.succ_pos n) (by omega : 1 < 10)
        omega
      have hstep : natToDecAux (f + 1) (n + 1) acc
          = natToDecAux f ((n + 1) / 10) (digitCh ((n + 1) % 10) :: acc) := rfl
      rw [hstep, ih _ _ hdiv]
      have hm : (n + 1) % 10 < 10 := Nat.mod_lt _ (by omega)
      have hfold : decodeFold ((n + 1) / 10) (digitCh ((n + 1) % 10) :: acc)
          = decodeFold ((n + 1) / 10 * 10 + dval (digitCh ((n + 1) % 10))) acc := rfl
      have harith : (n + 1) / 10 * 10 + dval (digitCh ((n + 1) % 10)) = n + 1 := by
        rw [dval_digitCh _ hm]
        omega
      rw [hfold, harith]

/-- Round trip: decoding the decimal rendering recovers the number. -/
theorem decodeDec_natToDec (n : Nat) : decodeDec (natToDec n) = n := by
  by_cases h : n = 0
  · subst h; decide
  · unfold natToDec
    rw [if_neg h]
    show decodeFold 0 (natToDecAux (n + 1) n []) = n
    rw [natToDecAux_spec (n + 1) n [] (by omega)]
    rfl

/-- Decimal rendering is injective. -/
theorem natToDec_inj {m n : Nat} (h : natToDec m = natToDec n) : m = n := by
  have := congrArg decodeDec h
  rwa [decodeDec_natToDec, decodeDec_natToDec] at this

/-! ### C1 — the loose parse of the source evaluates expressions -/

/-- C1: the claim states that the permissive parse constructs only
literal data and is never capable of evaluating expressions.  The
source hands the input to the Function constructor, a JS expression
evaluator: on the input 1+1 it computes the number 2, a value that is
not a literal of the input, while the literal-only tolerant grammar the
spec requires rejects that input.  This exhibits the security defect
the spec itself flags in its design notes. -/
theorem looseParse_evaluates_expressions :
    looseParse "1+1" = some (Json.num 2) ∧ looseParseLiteralOnly "1+1" = none :=
  ⟨rfl, rfl⟩

/-! ### C4 — total parse failure yields the empty sequence -/

/-- C4: when both the strict attempt and the tolerant attempt fail on
the top-level input, the pipeline returns the empty output sequence.
No fault propagates: parseRawJson is a total function into lists. -/
theorem parseRawJson_total_failure (gen : Nat → String) (s : String)
    (h1 : strictParse s = none) (h2 : looseParse s = none) :
    parseRawJson gen s = [] := by
  simp only [parseRawJson, h1, h2]

/-- C4 witness: an unrecoverable truncated input. -/
theorem parseRawJson_total_failure_witness :
    strictParse "\x7b\x7b\x7b" = none ∧ looseParse "\x7b\x7b\x7b" = none ∧
    parseRawJson (fun _ => "w") "\x7b\x7b\x7b" = [] :=
  ⟨rfl, rfl, parseRawJson_total_failure (fun _ => "w") "\x7b\x7b\x7b" rfl rfl⟩

/-! ### C5 — the traversal rules are independent -/

/-- C5: an object that wraps a data array holding one plain titled
record and itself carries a truthy title-like field contributes through
both the envelope-unwrap rule and the self rule: mining yields exactly
two candidates, the envelope's element and then the object itself. -/
theorem mine_envelope_and_self (t1 t2 : String) (h1 : t1 ≠ "") (h2 : t2 ≠ "") :
    mine (Json.obj [("data", Json.arr [Json.obj [("Título", Json.str t1)]]),
                    ("Título", Json.str t2)]) =
      [Json.obj [("Título", Json.str t1)],
       Json.obj [("data", Json.arr [Json.obj [("Título", Json.str t1)]]),
                 ("Título", Json.str t2)]] := by
  simp +decide [mine, mineList, mineData, lookupField, truthyOpt, truthy, h1, h2]

/-- C5 witness at concrete titles. -/
theorem mine_envelope_and_self_witness :
    mine (Json.obj [("data", Json.arr [Json.obj [("Título", Json.str "A")]]),
                    ("Título", Json.str "B")]) =
      [Json.obj [("Título", Json.str "A")],
       Json.obj [("data", Json.arr [Json.obj [("Título", Json.str "A")]]),
                 ("Título", Json.str "B")]] :=
  mine_envelope_and_self "A" "B" (by decide) (by decide)

/-! ### C7 — an embedded-output failure only skips that branch -/

/-- C7: when an object's output string fails to decode under both
attempts, only that branch contributes nothing: the object's other
rules (here its truthy title) still fire and its sibling is still
traversed.  The walk is a total function, so it never aborts. -/
theorem mine_embedded_failure_skips_branch (s t : String) (sib : Json)
    (hs : strictParse s = none) (hl : looseParse s = none) (ht : t ≠ "") :
    mine (Json.arr [Json.obj [("output", Json.str s), ("Título", Json.str t)], sib]) =
      Json.obj [("output", Json.str s), ("Título", Json.str t)] :: mine sib := by
  simp +decide [mine, mineList, mineData, lookupField, truthyOpt, truthy,
    innerParse, hs, hl, ht]

/-- C7 witness: a truncated embedded string next to a titled sibling. -/
theorem mine_embedded_failure_skips_branch_witness :
    mine (Json.arr [Json.obj [("output", Json.str "\x7b"), ("Título", Json.str "T")],
                    Json.obj [("Título", Json.str "S")]]) =
      Json.obj [("output", Json.str "\x7b"), ("Título", Json.str "T")] ::
        mine (Json.obj [("Título", Json.str "S")]) :=
  mine_embedded_failure_skips_branch "\x7b" "T" (Json.obj [("Título", Json.str "S")])
    rfl rfl (by decide)

/-! ### C3 — normalization is total and defaults every field -/

/-- A truthy-or-string-default value is never null. -/
theorem jsOrDefault_ne_null (o : Option Json) (s : String) :
    jsOrDefault o (Json.str s) ≠ Json.null := by
  match o with
  | none =>
    show Json.str s ≠ Json.null
    simp
  | some v =>
    show (if truthy v = true then v else Json.str s) ≠ Json.null
    by_cases h : truthy v = true
    · rw [if_pos h]
      intro hn
      subst hn
      simp [truthy] at h
    · rw [if_neg h]
      simp

/-- C3: normalization of one candidate is a total function into the
schema-complete Paper structure — no field of the result is absent or
null — with the documented defaults: title defaults to Untitled Paper,
year is the year-like field coerced to text else N/D, tags is the
tag-like field when it is a sequence else empty, summary defaults, the
contribution defaults to empty text, user notes are empty and the
importance flag is false at creation. -/
theorem normalizeRaw_defaults (i : String) (rp : Json) :
    (normalizeRaw i rp).id = i ∧
    (normalizeRaw i rp).title ≠ Json.null ∧
    (getFieldJ rp "Título" = none →
      (normalizeRaw i rp).title = Json.str "Untitled Paper") ∧
    (getFieldJ rp "Año" = none → (normalizeRaw i rp).year = "N/D") ∧
    (∀ v, getFieldJ rp "Año" = some v → truthy v = true →
      (normalizeRaw i rp).year = jsToString v) ∧
    (∀ l, getFieldJ rp "Etiquetas" = some (Json.arr l) → (normalizeRaw i rp).tags = l) ∧
    (getFieldJ rp "Etiquetas" = none → (normalizeRaw i rp).tags = []) ∧
    (normalizeRaw i rp).summary ≠ Json.null ∧
    (getFieldJ rp "Resumen Ejecutivo" = none →
      (normalizeRaw i rp).summary = Json.str "No summary provided.") ∧
    (normalizeRaw i rp).contribution ≠ Json.null ∧
    (getFieldJ rp "Conclusión/Aporte Clave" = none →
      (normalizeRaw i rp).contribution = Json.str "") ∧
    (normalizeRaw i rp).userNotes = "" ∧
    (normalizeRaw i rp).isImportant = false := by
  refine ⟨rfl, jsOrDefault_ne_null _ _, ?_, ?_, ?_, ?_, ?_,
    jsOrDefault_ne_null _ _, ?_, jsOrDefault_ne_null _ _, ?_, rfl, rfl⟩
  · intro h
    simp [normalizeRaw, jsOrDefault, h]
  · intro h
    simp [normalizeRaw, h]
  · intro v hv ht
    simp [normalizeRaw, hv, ht]
  · intro l hl
    simp [normalizeRaw, hl]
  · intro h
    simp [normalizeRaw, h]
  · intro h
    simp [normalizeRaw, jsOrDefault, h]
  · intro h
    simp [normalizeRaw, jsOrDefault, h]

/-- C3 witness: the empty candidate record receives every default. -/
theorem normalizeRaw_defaults_witness :
    (normalizeRaw "w3" (Json.obj [])).title = Json.str "Untitled Paper" ∧
    (normalizeRaw "w3" (Json.obj [])).year = "N/D" ∧
    (normalizeRaw "w3" (Json.obj [])).tags = [] :=
  ⟨(normalizeRaw_defaults "w3" (Json.obj [])).2.2.1 rfl,
   (normalizeRaw_defaults "w3" (Json.obj [])).2.2.2.1 rfl,
   (normalizeRaw_defaults "w3" (Json.obj [])).2.2.2.2.2.2.1 rfl⟩

/-! ### C6 — explicit link normalization: the scheme condition is
startsWith http / arXiv, not the absence of a scheme -/

/-- C6 counterexample: the claim states the explicit link value is left
as-is whenever it already has a scheme.  On the candidate with url
ftp://x.com — a value with a scheme that does not begin with http — the
source prepends https:// anyway, so the produced link sequence differs
from the one the claim describes (claimCleanLink follows the claim
wording). -/
theorem normalizeRaw_links_counterexample :
    (normalizeRaw "i" (Json.obj [("url", Json.str "ftp://x.com")])).links
        = ["https://ftp://x.com"] ∧
    claimCleanLink "ftp://x.com" = "ftp://x.com" ∧
    (normalizeRaw "i" (Json.obj [("url", Json.str "ftp://x.com")])).links
        ≠ [claimCleanLink "ftp://x.com"] :=
  ⟨rfl, rfl, by decide⟩

/-- C6 amended: for every candidate whose first truthy explicit
link-bearing field (url, link, URL, href, doi, in that order) holds the
string s, the link sequence is s trimmed — with https:// prepended
exactly when the trimmed value does not begin with http or arXiv and
contains www, .com or .org — placed in front of the links recovered
from the summary and contribution text, the whole deduplicated by exact
text equality keeping first occurrences. -/
theorem normalizeRaw_links (i : String) (rp : Json) (s : String)
    (h : firstTruthyField rp = some (Json.str s)) :
    (normalizeRaw i rp).links
      = dedupFirst (cleanLink s :: extractLinks (combinedText rp)) := by
  simp only [normalizeRaw, h]

/-- C6 witness: the spec's worked example — url example.com/x with
summary text mentioning https://foo.bar. -/
theorem normalizeRaw_links_witness :
    (normalizeRaw "w6" (Json.obj [("url", Json.str "example.com/x"),
        ("Resumen Ejecutivo", Json.str "see https://foo.bar")])).links
      = ["https://example.com/x", "https://foo.bar"] :=
  (normalizeRaw_links "w6"
    (Json.obj [("url", Json.str "example.com/x"),
        ("Resumen Ejecutivo", Json.str "see https://foo.bar")])
    "example.com/x" rfl).trans rfl

/-! ### C8 — the primary identifier path relies on randomness alone -/

/-- C8 counterexample: the claim states every new() result is
collision-free against all identifiers issued so far and that the
generator does not rely on randomness alone but distinguishes
near-simultaneous calls via a monotonic counter.  When the UUID
primitive is available the source returns its value directly and never
touches the counter, so two successive calls whose randomness oracle
repeats return the same identifier. -/
theorem generateId_randomness_alone_counterexample :
    (generateId ⟨true, "u", 0, "r"⟩ ⟨0⟩).1
      = (generateId ⟨true, "u", 0, "r"⟩ (generateId ⟨true, "u", 0, "r"⟩ ⟨0⟩).2).1 := rfl

/-- C8 amended: when the UUID primitive is available, generateId
returns its value directly — relying on that source of randomness alone
and leaving the counter untouched; only the fallback path combines
time, the monotonic counter modulo 9999 and randomness, and it does
distinguish near-simultaneous calls: two consecutive fallback calls
yield distinct identifiers even when the time and randomness oracles
return identical values. -/
theorem generateId_amended (env : GenEnv) (st : GenState) :
    (env.hasUUID = true → generateId env st = (env.uuid, st)) ∧
    (env.hasUUID = false →
      (generateId env st).1 ≠ (generateId env (generateId env st).2).1) := by
  constructor
  · intro h
    simp [generateId, h]
  · intro h
    simp only [generateId, h, Bool.false_eq_true, if_false]
    intro heq
    have hd := congrArg String.data heq
    simp only [String.data_append, List.append_assoc] at hd
    have h2 := List.append_cancel_left hd
    have h3 := List.append_cancel_left h2
    have h4 := List.append_cancel_left h3
    have h5 := List.append_cancel_right h4
    have h6 : natToDec ((st.counter + 1) % 9999)
        = natToDec (((st.counter + 1) % 9999 + 1) % 9999) := by
      have e1 : natToDec ((st.counter + 1) % 9999)
          = String.mk (natToDec ((st.counter + 1) % 9999)).data := rfl
      rw [e1, h5]
    have h7 := natToDec_inj h6
    omega

/-- C8 witness: both branches at concrete oracle values. -/
theorem generateId_amended_witness :
    generateId ⟨true, "u", 5, "r"⟩ ⟨3⟩ = ("u", ⟨3⟩) ∧
    (generateId ⟨false, "u", 5, "r"⟩ ⟨3⟩).1
      ≠ (generateId ⟨false, "u", 5, "r"⟩ (generateId ⟨false, "u", 5, "r"⟩ ⟨3⟩).2).1 :=
  ⟨(generateId_amended ⟨true, "u", 5, "r"⟩ ⟨3⟩).1 rfl,
   (generateId_amended ⟨false, "u", 5, "r"⟩ ⟨3⟩).2 rfl⟩

/-! ### Helper lemmas for the repair pass -/

theorem sanitizePaper_fresh (gen : Nat → String) (p : RawPaperRec) (seen : List String)
    (c : Nat) (h : usableId p = none) :
    sanitizePaper gen p seen c
      = ({ p with pid := some (Json.str (gen c)) }, gen c :: seen, c + 1) := by
  simp [sanitizePaper, h]

theorem sanitizePaper_dup (gen : Nat → String) (p : RawPaperRec) (seen : List String)
    (c : Nat) (t : String) (h : usableId p = some t) (hm : t ∈ seen) :
    sanitizePaper gen p seen c
      = ({ p with pid := some (Json.str (gen c)) }, gen c :: seen, c + 1) := by
  simp [sanitizePaper, h, hm]

theorem sanitizePaper_keep (gen : Nat → String) (p : RawPaperRec) (seen : List String)
    (c : Nat) (t : String) (h : usableId p = some t) (hm : t ∉ seen) :
    sanitizePaper gen p seen c
      = ({ p with pid := some (Json.str t) }, t :: seen, c) := by
  simp [sanitizePaper, h, hm]

theorem sanitizePapers_nil (gen : Nat → String) (seen : List String) (c : Nat) :
    sanitizePapers gen [] seen c = ([], seen, c) := rfl

theorem sanitizePapers_cons (gen : Nat → String) (p : RawPaperRec) (ps : List RawPaperRec)
    (seen : List String) (c : Nat) :
    sanitizePapers gen (p :: ps) seen c
      = ((sanitizePaper gen p seen c).1 ::
           (sanitizePapers gen ps (sanitizePaper gen p seen c).2.1
             (sanitizePaper gen p seen c).2.2).1,
         (sanitizePapers gen ps (sanitizePaper gen p seen c).2.1
             (sanitizePaper gen p seen c).2.2).2) := rfl

theorem outIds_cons_str (p : RawPaperRec) (i : String) (qs : List RawPaperRec) :
    outIds ({ p with pid := some (Json.str i) } :: qs) = i :: outIds qs := by
  simp [outIds, outIdOf, List.filterMap_cons]

/-- The walk invariant of the repair pass over a record list: starting
from a seen-set the pending fresh identifiers avoid, and with fresh
identifiers avoiding every usable input identifier, the output
identifiers are duplicate-free and disjoint from the initial seen-set,
the final seen-set is the initial one plus the output identifiers, and
the pending fresh identifiers still avoid it. -/
theorem sanitizePapers_invariant (gen : Nat → String) (hg : Function.Injective gen) :
    ∀ (ps : List RawPaperRec) (seen : List String) (c : Nat),
      (∀ n, c ≤ n → gen n ∉ seen) →
      (∀ n t, t ∈ ps.filterMap usableId → gen n ≠ t) →
      (outIds (sanitizePapers gen ps seen c).1).Nodup ∧
      (∀ i, i ∈ outIds (sanitizePapers gen ps seen c).1 → i ∉ seen) ∧
      (∀ x, x ∈ (sanitizePapers gen ps seen c).2.1 ↔
        x ∈ seen ∨ x ∈ outIds (sanitizePapers gen ps seen c).1) ∧
      c ≤ (sanitizePapers gen ps seen c).2.2 ∧
      (∀ n, (sanitizePapers gen ps seen c).2.2 ≤ n →
        gen n ∉ (sanitizePapers gen ps seen c).2.1) := by
  intro ps
  induction ps with
  | nil =>
    intro seen c hseen hpool
    refine ⟨?_, ?_, ?_, le_refl c, ?_⟩
    · simp [sanitizePapers_nil, outIds]
    · intro i hi
      simp [sanitizePapers_nil, outIds] at hi
    · intro x
      simp [sanitizePapers_nil, outIds]
    · intro n hn
      exact hseen n hn
  | cons p ps ih =>
    intro seen c hseen hpool
    rcases hu : usableId p with _ | t
    · -- absent identifier: a fresh one is taken
      have hgoal1 : (sanitizePapers gen (p :: ps) seen c).1
          = { p with pid := some (Json.str (gen c)) }
              :: (sanitizePapers gen ps (gen c :: seen) (c + 1)).1 := by
        rw [sanitizePapers_cons, sanitizePaper_fresh gen p seen c hu]
      have hgoal2 : (sanitizePapers gen (p :: ps) seen c).2
          = (sanitizePapers gen ps (gen c :: seen) (c + 1)).2 := by
        rw [sanitizePapers_cons, sanitizePaper_fresh gen p seen c hu]
      have hpoolT : ∀ n t, t ∈ ps.filterMap usableId → gen n ≠ t := by
        intro n t ht
        refine hpool n t ?_
        simp [List.filterMap_cons, hu, ht]
      have hseenT : ∀ n, c + 1 ≤ n → gen n ∉ gen c :: seen := by
        intro n hn hmem
        rcases List.mem_cons.mp hmem with heq | hm
        · have := hg heq
          omega
        · exact hseen n (by omega) hm
      obtain ⟨ihN, ihB, ihC, ihD, ihE⟩ := ih (gen c :: seen) (c + 1) hseenT hpoolT
      rw [hgoal1, hgoal2, outIds_cons_str]
      refine ⟨?_, ?_, ?_, by omega, ihE⟩
      · refine List.nodup_cons.mpr ⟨?_, ihN⟩
        intro hmem
        exact ihB (gen c) hmem (List.mem_cons_self _ _)
      · intro i hi
        rcases List.mem_cons.mp hi with heq | hm
        · subst heq
          exact hseen c (le_refl c)
        · intro hmem
          exact ihB i hm (List.mem_cons_of_mem _ hmem)
      · intro x
        rw [ihC x]
        simp only [List.mem_cons]
        tauto
    · by_cases hm : t ∈ seen
      · -- duplicated identifier: a fresh one is taken
        have hgoal1 : (sanitizePapers gen (p :: ps) seen c).1
            = { p with pid := some (Json.str (gen c)) }
                :: (sanitizePapers gen ps (gen c :: seen) (c + 1)).1 := by
          rw [sanitizePapers_cons, sanitizePaper_dup gen p seen c t hu hm]
        have hgoal2 : (sanitizePapers gen (p :: ps) seen c).2
            = (sanitizePapers gen ps (gen c :: seen) (c + 1)).2 := by
          rw [sanitizePapers_cons, sanitizePaper_dup gen p seen c t hu hm]
        have hpoolT : ∀ n t2, t2 ∈ ps.filterMap usableId → gen n ≠ t2 := by
          intro n t2 ht
          refine hpool n t2 ?_
          simp [List.filterMap_cons, hu, ht]
        have hseenT : ∀ n, c + 1 ≤ n → gen n ∉ gen c :: seen := by
          intro n hn hmem
          rcases List.mem_cons.mp hmem with heq | hm2
          · have := hg heq
            omega
          · exact hseen n (by omega) hm2
        obtain ⟨ihN, ihB, ihC, ihD, ihE⟩ := ih (gen c :: seen) (c + 1) hseenT hpoolT
        rw [hgoal1, hgoal2, outIds_cons_str]
        refine ⟨?_, ?_, ?_, by omega, ihE⟩
        · refine List.nodup_cons.mpr ⟨?_, ihN⟩
          intro hmem
          exact ihB (gen c) hmem (List.mem_cons_self _ _)
        · intro i hi
          rcases List.mem_cons.mp hi with heq | hm2
          · subst heq
            exact hseen c (le_refl c)
          · intro hmem
            exact ihB i hm2 (List.mem_cons_of_mem _ hmem)
        · intro x
          rw [ihC x]
          simp only [List.mem_cons]
          tauto
      · -- first occurrence of a usable identifier: it is kept
        have hgoal1 : (sanitizePapers gen (p :: ps) seen c).1
            = { p with pid := some (Json.str t) }
                :: (sanitizePapers gen ps (t :: seen) c).1 := by
          rw [sanitizePapers_cons, sanitizePaper_keep gen p seen c t hu hm]
        have hgoal2 : (sanitizePapers gen (p :: ps) seen c).2
            = (sanitizePapers gen ps (t :: seen) c).2 := by
          rw [sanitizePapers_cons, sanitizePaper_keep gen p seen c t hu hm]
        have hpoolT : ∀ n t2, t2 ∈ ps.filterMap usableId → gen n ≠ t2 := by
          intro n t2 ht
          refine hpool n t2 ?_
          simp [List.filterMap_cons, hu, ht]
        have hseenT : ∀ n, c ≤ n → gen n ∉ t :: seen := by
          intro n hn hmem
          rcases List.mem_cons.mp hmem with heq | hm2
          · refine hpool n t ?_ heq
            simp [List.filterMap_cons, hu]
          · exact hseen n hn hm2
        obtain ⟨ihN, ihB, ihC, ihD, ihE⟩ := ih (t :: seen) c hseenT hpoolT
        rw [hgoal1, hgoal2, outIds_cons_str]
        refine ⟨?_, ?_, ?_, ihD, ihE⟩
        · refine List.nodup_cons.mpr ⟨?_, ihN⟩
          intro hmem
          exact ihB t hmem (List.mem_cons_self _ _)
        · intro i hi
          rcases List.mem_cons.mp hi with heq | hm2
          · subst heq
            exact hm
          · intro hmem
            exact ihB i hm2 (List.mem_cons_of_mem _ hmem)
        · intro x
          rw [ihC x]
          simp only [List.mem_cons]
          tauto

/-- The record at position j whose usable identifier has no earlier
occurrence and is not initially seen keeps that identifier, provided
fresh identifiers never equal it. -/
theorem sanitizePapers_kept (gen : Nat → String) :
    ∀ (ps : List RawPaperRec) (seen : List String) (c : Nat) (j : Nat)
      (p : RawPaperRec) (t : String),
      ps[j]? = some p → usableId p = some t → t ∉ seen →
      (∀ (i : Nat) (q : RawPaperRec), i < j → ps[i]? = some q → usableId q ≠ some t) →
      (∀ n, gen n ≠ t) →
      ((sanitizePapers gen ps seen c).1[j]?).map RawPaperRec.pid
        = some (some (Json.str t)) := by
  intro ps
  induction ps with
  | nil =>
    intro seen c j p t hj
    simp at hj
  | cons p0 ps ih =>
    intro seen c j p t hj hu hseen hearlier hgen
    match j with
    | 0 =>
      have hp : p0 = p := by
        simp at hj
        exact hj
      subst hp
      rw [sanitizePapers_cons, sanitizePaper_keep gen p0 seen c t hu hseen]
      simp
    | j + 1 =>
      have hjT : ps[j]? = some p := by
        simpa using hj
      have hearlierT : ∀ (i : Nat) (q : RawPaperRec), i < j → ps[i]? = some q →
          usableId q ≠ some t := by
        intro i q hi hq
        exact hearlier (i + 1) q (by omega) (by simpa using hq)
      rcases hu0 : usableId p0 with _ | t0
      · rw [sanitizePapers_cons, sanitizePaper_fresh gen p0 seen c hu0]
        have hseenT : t ∉ gen c :: seen := by
          intro hmem
          rcases List.mem_cons.mp hmem with heq | hm
          · exact hgen c heq.symm
          · exact hseen hm
        have := ih (gen c :: seen) (c + 1) j p t hjT hu hseenT hearlierT hgen
        simpa using this
      · by_cases hm0 : t0 ∈ seen
        · rw [sanitizePapers_cons, sanitizePaper_dup gen p0 seen c t0 hu0 hm0]
          have hseenT : t ∉ gen c :: seen := by
            intro hmem
            rcases List.mem_cons.mp hmem with heq | hm
            · exact hgen c heq.symm
            · exact hseen hm
          have := ih (gen c :: seen) (c + 1) j p t hjT hu hseenT hearlierT hgen
          simpa using this
        · rw [sanitizePapers_cons, sanitizePaper_keep gen p0 seen c t0 hu0 hm0]
          have hne : t0 ≠ t := by
            intro heq
            subst heq
            exact hearlier 0 p0 (by omega) (by simp) hu0
          have hseenT : t ∉ t0 :: seen := by
            intro hmem
            rcases List.mem_cons.mp hmem with heq | hm
            · exact hne heq.symm
            · exact hseen hm
          have := ih (t0 :: seen) c j p t hjT hu hseenT hearlierT hgen
          simpa using this

/-- The repair pass touches nothing but the identifier: record counts
and the non-identifier fields at every position are preserved. -/
theorem sanitizePapers_frame (gen : Nat → String) :
    ∀ (ps : List RawPaperRec) (seen : List String) (c : Nat),
      (sanitizePapers gen ps seen c).1.length = ps.length ∧
      (∀ j : Nat, ((sanitizePapers gen ps seen c).1[j]?).map RawPaperRec.rest
          = (ps[j]?).map RawPaperRec.rest) := by
  intro ps
  induction ps with
  | nil =>
    intro seen c
    exact ⟨rfl, fun j => rfl⟩
  | cons p ps ih =>
    intro seen c
    have hrest : (sanitizePaper gen p seen c).1.rest = p.rest := by
      rcases hu : usableId p with _ | t
      · rw [sanitizePaper_fresh gen p seen c hu]
      · by_cases hm : t ∈ seen
        · rw [sanitizePaper_dup gen p seen c t hu hm]
        · rw [sanitizePaper_keep gen p seen c t hu hm]
    obtain ⟨ihL, ihR⟩ := ih (sanitizePaper gen p seen c).2.1 (sanitizePaper gen p seen c).2.2
    rw [sanitizePapers_cons]
    refine ⟨by simpa using ihL, ?_⟩
    intro j
    match j with
    | 0 => simpa using hrest
    | j + 1 => simpa using ihR j

/-- Every record the repair pass emits carries a string identifier. -/
theorem sanitizePapers_ids_strings (gen : Nat → String) :
    ∀ (ps : List RawPaperRec) (seen : List String) (c : Nat),
      ∀ q ∈ (sanitizePapers gen ps seen c).1, ∃ i, q.pid = some (Json.str i) := by
  intro ps
  induction ps with
  | nil =>
    intro seen c q hq
    simp [sanitizePapers_nil] at hq
  | cons p ps ih =>
    intro seen c q hq
    rw [sanitizePapers_cons] at hq
    rcases List.mem_cons.mp hq with heq | hm
    · subst heq
      rcases hu : usableId p with _ | t
      · rw [sanitizePaper_fresh gen p seen c hu]
        exact ⟨gen c, rfl⟩
      · by_cases hmem : t ∈ seen
        · rw [sanitizePaper_dup gen p seen c t hu hmem]
          exact ⟨gen c, rfl⟩
        · rw [sanitizePaper_keep gen p seen c t hu hmem]
          exact ⟨t, rfl⟩
    · exact ih _ _ q hm

theorem sanitizePapers_append (gen : Nat → String) :
    ∀ (a b : List RawPaperRec) (seen : List String) (c : Nat),
      sanitizePapers gen (a ++ b) seen c
        = ((sanitizePapers gen a seen c).1
             ++ (sanitizePapers gen b (sanitizePapers gen a seen c).2.1
                  (sanitizePapers gen a seen c).2.2).1,
           (sanitizePapers gen b (sanitizePapers gen a seen c).2.1
              (sanitizePapers gen a seen c).2.2).2) := by
  intro a
  induction a with
  | nil =>
    intro b seen c
    simp [sanitizePapers_nil]
  | cons p a ih =>
    intro b seen c
    rw [List.cons_append, sanitizePapers_cons, sanitizePapers_cons, ih]
    simp

theorem sanitizeSheets_nil (gen : Nat → String) (seen : List String) (c : Nat) :
    sanitizeSheets gen [] seen c = ([], seen, c) := rfl

theorem sanitizeSheets_cons_none (gen : Nat → String) (s : RawSheetRec)
    (ss : List RawSheetRec) (seen : List String) (c : Nat) (h : s.papers = none) :
    sanitizeSheets gen (s :: ss) seen c
      = ({ papers := some [], rest := s.rest } :: (sanitizeSheets gen ss seen c).1,
         (sanitizeSheets gen ss seen c).2) := by
  simp [sanitizeSheets, h]

theorem sanitizeSheets_cons_some (gen : Nat → String) (s : RawSheetRec)
    (ss : List RawSheetRec) (seen : List String) (c : Nat) (ps : List RawPaperRec)
    (h : s.papers = some ps) :
    sanitizeSheets gen (s :: ss) seen c
      = ({ papers := some (sanitizePapers gen ps seen c).1, rest := s.rest }
           :: (sanitizeSheets gen ss (sanitizePapers gen ps seen c).2.1
                (sanitizePapers gen ps seen c).2.2).1,
         (sanitizeSheets gen ss (sanitizePapers gen ps seen c).2.1
            (sanitizePapers gen ps seen c).2.2).2) := by
  simp [sanitizeSheets, h]

theorem flatPapers_cons (s : RawSheetRec) (ss : List RawSheetRec) :
    flatPapers (s :: ss) = s.papers.getD [] ++ flatPapers ss := rfl

/-- The repaired collection, flattened in walk order, is the flat walk
of the input records with the shared seen-set: the per-group structure
does not influence the identifier walk. -/
theorem sanitizeSheets_flat (gen : Nat → String) :
    ∀ (ss : List RawSheetRec) (seen : List String) (c : Nat),
      flatPapers (sanitizeSheets gen ss seen c).1
        = (sanitizePapers gen (flatPapers ss) seen c).1 ∧
      (sanitizeSheets gen ss seen c).2
        = (sanitizePapers gen (flatPapers ss) seen c).2 := by
  intro ss
  induction ss with
  | nil =>
    intro seen c
    exact ⟨rfl, rfl⟩
  | cons s ss ih =>
    intro seen c
    rcases hp : s.papers with _ | ps
    · rw [sanitizeSheets_cons_none gen s ss seen c hp]
      obtain ⟨ih1, ih2⟩ := ih seen c
      constructor
      · rw [flatPapers_cons]
        simp only [Option.getD_some, List.nil_append]
        rw [ih1, flatPapers_cons, hp]
        simp
      · rw [ih2, flatPapers_cons, hp]
        simp
    · rw [sanitizeSheets_cons_some gen s ss seen c ps hp]
      obtain ⟨ih1, ih2⟩ :=
        ih (sanitizePapers gen ps seen c).2.1 (sanitizePapers gen ps seen c).2.2
      constructor
      · rw [flatPapers_cons]
        simp only [Option.getD_some]
        rw [ih1, flatPapers_cons, hp]
        simp only [Option.getD_some]
        rw [sanitizePapers_append]
      · rw [ih2, flatPapers_cons, hp]
        simp only [Option.getD_some]
        rw [sanitizePapers_append]

/-- The repair pass preserves the group structure: group count and
order, each group's non-record fields, and within each group the record
count, order and non-identifier fields. -/
theorem sanitizeSheets_frame (gen : Nat → String) :
    ∀ (ss : List RawSheetRec) (seen : List String) (c : Nat),
      (sanitizeSheets gen ss seen c).1.length = ss.length ∧
      (∀ (j : Nat) (s : RawSheetRec), ss[j]? = some s →
        ∃ s', (sanitizeSheets gen ss seen c).1[j]? = some s' ∧ s'.rest = s.rest ∧
          (∀ ps, s.papers = some ps → ∃ qs, s'.papers = some qs ∧
            qs.length = ps.length ∧
            (∀ i : Nat, (qs[i]?).map RawPaperRec.rest = (ps[i]?).map RawPaperRec.rest))) := by
  intro ss
  induction ss with
  | nil =>
    intro seen c
    refine ⟨rfl, ?_⟩
    intro j s hj
    simp at hj
  | cons s0 ss ih =>
    intro seen c
    rcases hp : s0.papers with _ | ps
    · rw [sanitizeSheets_cons_none gen s0 ss seen c hp]
      obtain ⟨ihL, ihR⟩ := ih seen c
      refine ⟨by simpa using ihL, ?_⟩
      intro j s hj
      match j with
      | 0 =>
        have hs : s0 = s := by simpa using hj
        subst hs
        refine ⟨{ papers := some [], rest := s0.rest }, by simp, rfl, ?_⟩
        intro ps2 hps2
        rw [hp] at hps2
        cases hps2
      | j + 1 =>
        have hjT : ss[j]? = some s := by simpa using hj
        obtain ⟨s', hs1, hs2, hs3⟩ := ihR j s hjT
        exact ⟨s', by simpa using hs1, hs2, hs3⟩
    · rw [sanitizeSheets_cons_some gen s0 ss seen c ps hp]
      obtain ⟨ihL, ihR⟩ :=
        ih (sanitizePapers gen ps seen c).2.1 (sanitizePapers gen ps seen c).2.2
      refine ⟨by simpa using ihL, ?_⟩
      intro j s hj
      match j with
      | 0 =>
        have hs : s0 = s := by simpa using hj
        subst hs
        refine ⟨{ papers := some (sanitizePapers gen ps seen c).1, rest := s0.rest },
          by simp, rfl, ?_⟩
        intro ps2 hps2
        rw [hp] at hps2
        have hps : ps = ps2 := by
          injection hps2
        subst hps
        obtain ⟨hfL, hfR⟩ := sanitizePapers_frame gen ps seen c
        exact ⟨(sanitizePapers gen ps seen c).1, rfl, hfL, hfR⟩
      | j + 1 =>
        have hjT : ss[j]? = some s := by simpa using hj
        obtain ⟨s', hs1, hs2, hs3⟩ := ihR j s hjT
        exact ⟨s', by simpa using hs1, hs2, hs3⟩

/-! ### C2 — the repair pass restores collection-wide identifier
uniqueness -/

/-- C2: with one seen-set shared across the whole collection, the
repair pass — walking every record of every group in stored order,
normalizing identifiers to trimmed text and taking a fresh identifier
exactly when the normalized one is unusable (absent, non-truthy or
empty after trimming) or already seen — leaves no identifier occurring
twice across the entire collection, keeps the total record count
unchanged, gives every record a string identifier, and lets the first
record bearing a previously unseen usable identifier retain it.  The
fresh-identifier source is abstracted as an injective sequence avoiding
the usable input identifiers, the freshness new() contractually
provides. -/
theorem sanitizeData_repair (gen : Nat → String) (sheets : List RawSheetRec)
    (hg : Function.Injective gen) (hpool : ∀ n, gen n ∉ poolIds sheets) :
    (idsOf (sanitizeData gen sheets)).Nodup ∧
    (flatPapers (sanitizeData gen sheets)).length = (flatPapers sheets).length ∧
    (∀ q ∈ flatPapers (sanitizeData gen sheets), ∃ i, q.pid = some (Json.str i)) ∧
    (∀ (j : Nat) (p : RawPaperRec) (t : String),
      (flatPapers sheets)[j]? = some p → usableId p = some t →
      (∀ (i : Nat) (q : RawPaperRec), i < j → (flatPapers sheets)[i]? = some q →
        usableId q ≠ some t) →
      ((flatPapers (sanitizeData gen sheets))[j]?).map RawPaperRec.pid
        = some (some (Json.str t))) := by
  have hsd : sanitizeData gen sheets = (sanitizeSheets gen sheets [] 0).1 := rfl
  have hflat := sanitizeSheets_flat gen sheets [] 0
  have hpool2 : ∀ n t, t ∈ (flatPapers sheets).filterMap usableId → gen n ≠ t := by
    intro n t ht heq
    subst heq
    exact hpool n ht
  have hseen0 : ∀ n, 0 ≤ n → gen n ∉ ([] : List String) := by
    intro n _ h
    exact absurd h (List.not_mem_nil _)
  obtain ⟨hN, hB, hC, hD, hE⟩ :=
    sanitizePapers_invariant gen hg (flatPapers sheets) [] 0 hseen0 hpool2
  refine ⟨?_, ?_, ?_, ?_⟩
  · show (outIds (flatPapers (sanitizeData gen sheets))).Nodup
    rw [hsd, hflat.1]
    exact hN
  · rw [hsd, hflat.1]
    exact (sanitizePapers_frame gen (flatPapers sheets) [] 0).1
  · intro q hq
    rw [hsd, hflat.1] at hq
    exact sanitizePapers_ids_strings gen (flatPapers sheets) [] 0 q hq
  · intro j p t hj hu hearlier
    have hgen : ∀ n, gen n ≠ t := by
      intro n heq
      subst heq
      refine hpool n ?_
      exact List.mem_filterMap.mpr ⟨p, List.getElem?_mem hj, hu⟩
    rw [hsd, hflat.1]
    exact sanitizePapers_kept gen (flatPapers sheets) [] 0 j p t hj hu
      (List.not_mem_nil t) hearlier hgen

/-- C2 witness: the spec's example — two records sharing identifier 7
in one group; repair leaves the identifiers duplicate-free. -/
theorem sanitizeData_repair_witness :
    (idsOf (sanitizeData (fun n => natToDec (n + 8))
      [{ papers := some [{ pid := some (Json.str "7"), rest := [] },
                         { pid := some (Json.str "7"), rest := [] }],
         rest := [] }])).Nodup :=
  (sanitizeData_repair (fun n => natToDec (n + 8))
    [{ papers := some [{ pid := some (Json.str "7"), rest := [] },
                       { pid := some (Json.str "7"), rest := [] }],
       rest := [] }]
    (by
      intro a b h
      have := natToDec_inj h
      omega)
    (by
      intro n h
      rw [show poolIds
          [{ papers := some [{ pid := some (Json.str "7"), rest := [] },
                             { pid := some (Json.str "7"), rest := [] }],
             rest := ([] : List (String × Json)) }] = ["7", "7"] from rfl] at h
      simp at h
      have h2 : natToDec (n + 8) = natToDec 7 := h.trans rfl
      have := natToDec_inj h2
      omega)).1

/-! ### C9 — the repair pass modifies at most the identifier field -/

/-- C9: on a collection whose groups all hold record sequences, the
repair pass preserves the number and order of groups, every non-record
field of each group, the number and order of records within each group,
and every record field other than the identifier. -/
theorem sanitizeData_frame_effect (gen : Nat → String) (sheets : List RawSheetRec)
    (h0 : ∀ s ∈ sheets, s.papers.isSome = true) :
    (sanitizeData gen sheets).length = sheets.length ∧
    (∀ (j : Nat) (s : RawSheetRec), sheets[j]? = some s →
      ∃ s', (sanitizeData gen sheets)[j]? = some s' ∧ s'.rest = s.rest ∧
        ∃ ps qs, s.papers = some ps ∧ s'.papers = some qs ∧ qs.length = ps.length ∧
          (∀ i : Nat, (qs[i]?).map RawPaperRec.rest = (ps[i]?).map RawPaperRec.rest)) := by
  obtain ⟨hL, hR⟩ := sanitizeSheets_frame gen sheets [] 0
  have hsd : sanitizeData gen sheets = (sanitizeSheets gen sheets [] 0).1 := rfl
  refine ⟨by rw [hsd]; exact hL, ?_⟩
  intro j s hj
  obtain ⟨s', h1, h2, h3⟩ := hR j s hj
  have hmem : s ∈ sheets := List.getElem?_mem hj
  have hps : ∃ ps, s.papers = some ps := by
    rcases hpp : s.papers with _ | ps
    · have := h0 s hmem
      rw [hpp] at this
      cases this
    · exact ⟨ps, rfl⟩
  obtain ⟨ps, hps⟩ := hps
  obtain ⟨qs, hq1, hq2, hq3⟩ := h3 ps hps
  exact ⟨s', by rw [hsd]; exact h1, h2, ps, qs, hps, hq1, hq2, hq3⟩

/-- C9 witness: a one-group collection whose record keeps its other
fields. -/
theorem sanitizeData_frame_effect_witness :
    (sanitizeData (fun _ => "g")
      [{ papers := some [{ pid := some (Json.str "x"), rest := [("a", Json.num 1)] }],
         rest := [("title", Json.str "T")] }]).length = 1 :=
  ((sanitizeData_frame_effect (fun _ => "g")
      [{ papers := some [{ pid := some (Json.str "x"), rest := [("a", Json.num 1)] }],
         rest := [("title", Json.str "T")] }]
      (by
        intro s hs
        simp at hs
        subst hs
        rfl)).1).trans rfl

/-! ### C10 — the pipeline output depends on the generator only in the
identifier field -/

theorem mapIdxFrom_length (f : Nat → Json → Paper) :
    ∀ (cs : List Json) (k : Nat), (mapIdxFrom f k cs).length = cs.length := by
  intro cs
  induction cs with
  | nil => intro k; rfl
  | cons x xs ih =>
    intro k
    simp [mapIdxFrom, ih]

theorem mapIdxFrom_getElem (f : Nat → Json → Paper) :
    ∀ (cs : List Json) (k j : Nat),
      (mapIdxFrom f k cs)[j]? = (cs[j]?).map (f (k + j)) := by
  intro cs
  induction cs with
  | nil => intro k j; simp [mapIdxFrom]
  | cons x xs ih =>
    intro k j
    match j with
    | 0 => simp [mapIdxFrom]
    | j + 1 =>
      have e1 : (mapIdxFrom f k (x :: xs))[j + 1]? = (mapIdxFrom f (k + 1) xs)[j]? := by
        simp [mapIdxFrom]
      have e2 : ((x :: xs)[j + 1]?).map (f (k + (j + 1))) = (xs[j]?).map (f (k + (j + 1))) := by
        simp
      rw [e1, e2, ih (k + 1) j]
      have e3 : k + 1 + j = k + (j + 1) := by omega
      rw [e3]

/-- Every field of the normalized record other than the identifier is
independent of the identifier handed in. -/
theorem normalizeRaw_id_irrelevant (i1 i2 : String) (rp : Json) :
    (normalizeRaw i1 rp).title = (normalizeRaw i2 rp).title ∧
    (normalizeRaw i1 rp).year = (normalizeRaw i2 rp).year ∧
    (normalizeRaw i1 rp).tags = (normalizeRaw i2 rp).tags ∧
    (normalizeRaw i1 rp).summary = (normalizeRaw i2 rp).summary ∧
    (normalizeRaw i1 rp).contribution = (normalizeRaw i2 rp).contribution ∧
    (normalizeRaw i1 rp).userNotes = (normalizeRaw i2 rp).userNotes ∧
    (normalizeRaw i1 rp).isImportant = (normalizeRaw i2 rp).isImportant ∧
    (normalizeRaw i1 rp).links = (normalizeRaw i2 rp).links :=
  ⟨rfl, rfl, rfl, rfl, rfl, rfl, rfl, rfl⟩

/-- C10: on any input the strict parse accepts, two runs of the full
pipeline — deserialize, mine, normalize — with different identifier
generators return sequences of equal length whose records agree on
every field except the identifier. -/
theorem parseRawJson_id_independence (input : String) (v : Json) (g1 g2 : Nat → String)
    (h : strictParse input = some v) :
    (parseRawJson g1 input).length = (parseRawJson g2 input).length ∧
    (∀ (j : Nat) (p1 p2 : Paper), (parseRawJson g1 input)[j]? = some p1 →
      (parseRawJson g2 input)[j]? = some p2 →
      p1.title = p2.title ∧ p1.year = p2.year ∧ p1.tags = p2.tags ∧
      p1.summary = p2.summary ∧ p1.contribution = p2.contribution ∧
      p1.userNotes = p2.userNotes ∧ p1.isImportant = p2.isImportant ∧
      p1.links = p2.links) := by
  simp only [parseRawJson, h]
  by_cases hn : containsNull (mine v) = true
  · rw [if_pos hn, if_pos hn]
    refine ⟨rfl, ?_⟩
    intro j p1 p2 h1 h2
    simp at h1
  · rw [if_neg hn, if_neg hn]
    refine ⟨by rw [mapIdxFrom_length, mapIdxFrom_length], ?_⟩
    intro j p1 p2 h1 h2
    rw [mapIdxFrom_getElem] at h1 h2
    cases hc : (mine v)[j]? with
    | none =>
      rw [hc] at h1
      simp at h1
    | some rp =>
      rw [hc] at h1 h2
      simp only [Option.map_some', Option.some.injEq] at h1 h2
      have e1 : p1 = normalizeRaw (g1 (0 + j)) rp := h1.symm
      have e2 : p2 = normalizeRaw (g2 (0 + j)) rp := h2.symm
      subst e1
      subst e2
      exact normalizeRaw_id_irrelevant _ _ rp

/-- C10 witness: a strict-syntax input with one record, two different
generators. -/
theorem parseRawJson_id_independence_witness :
    (parseRawJson (fun n => "a" ++ natToDec n) "[\x7b\"Título\":\"A\"\x7d]").length
      = (parseRawJson (fun _ => "z") "[\x7b\"Título\":\"A\"\x7d]").length :=
  (parseRawJson_id_independence "[\x7b\"Título\":\"A\"\x7d]"
    (Json.arr [Json.obj [("Título", Json.str "A")]])
    (fun n => "a" ++ natToDec n) (fun _ => "z") rfl).1

end VisualInfo
